import Mathlib

/-!
# Verification of the praxis geospatial helpers

Shallow embedding of `src/praxis/utils/helpers.py` and proofs about the
two pipeline stages the specification singles out:

* the grid generator `polygon_binning_to_points` (helpers.py, lines 86-127);
* the surface interpolator `interpolate_point_measures` (lines 129-164).

Modelling conventions:

* Planar coordinates are exact rationals (`ℚ`); the floating-point
  arithmetic of the original is modelled exactly, overflow and rounding
  being irrelevant to the properties at stake.
* The pair of map projections applied through `pyproj`/`geopandas.to_crs`
  (EPSG:4326 to EPSG:3857 and back) is transcendental library code; it is
  modelled by a pair of abstract maps `proj` / `projInv` passed as
  parameters, with the round-trip law `proj (projInv p) = p` assumed where
  a theorem needs it.
* Shapely's `Polygon.contains` on a point argument is true exactly on the
  interior of the polygon (boundary excluded); it is modelled by
  `polyContainsB`, an even-odd ray-casting test guarded by an explicit
  on-boundary test.
* The two unbounded `while` loops of `polygon_binning_to_points` are
  step-indexed by fuel (`innerLoop`, `outerLoop`); `none` means the fuel
  ran out before the loop condition failed, and divergence of the source
  loop is the statement that every fuel yields `none`.
* `scipy.interpolate.griddata(method=linear)` performs barycentric
  interpolation over the Delaunay triangulation of the input points and
  raises `QhullError` when that triangulation is degenerate.  The
  triangulation (a list of index triples) is passed to the model as a
  parameter; theorems quantify over every triangulation satisfying the
  properties a Delaunay triangulation guarantees, hence hold for the one
  scipy computes.  Out-of-hull (and NaN-coordinate) queries produce the
  no-data sentinel, modelled by `Option.none`.
* Python exceptions surface as `Except`: `KeyError` from a missing
  dataframe column is `InterpErr.missingAttribute`, `QhullError` from a
  degenerate triangulation is `InterpErr.insufficientData`, matching the
  specification's error taxonomy.
-/

/-- A planar point: a coordinate pair, modelling a shapely `Point`. -/
abbrev Pt : Type := ℚ × ℚ

/-- Twice the signed area of the triangle `(o, p, q)`: the cross product
of the vectors `p - o` and `q - o`. -/
def crossQ (o p q : Pt) : ℚ :=
  (p.1 - o.1) * (q.2 - o.2) - (p.2 - o.2) * (q.1 - o.1)

/-- Point `p` lies on the closed segment from `a` to `b`. -/
def onSegB (a b p : Pt) : Bool :=
  crossQ a b p == 0 && decide (min a.1 b.1 ≤ p.1) && decide (p.1 ≤ max a.1 b.1) &&
    decide (min a.2 b.2 ≤ p.2) && decide (p.2 ≤ max a.2 b.2)

/-- The edges of the closed ring through the vertex list `poly` (each
vertex joined to the next, the last joined back to the first). -/
def ringEdges (poly : List Pt) : List (Pt × Pt) :=
  poly.zip (poly.drop 1 ++ poly.take 1)

/-- Point `p` lies on the boundary of the polygon with vertex ring
`poly`. -/
def onBoundaryB (poly : List Pt) (p : Pt) : Bool :=
  (ringEdges poly).any (fun e => onSegB e.1 e.2 p)

/-- The edge from `a` to `b` crosses the horizontal ray going right from
`p` (the standard even-odd ray-casting rule, with the half-open vertical
range convention making shared vertices count once). -/
def edgeCrossesB (a b p : Pt) : Bool :=
  (decide (p.2 < a.2) != decide (p.2 < b.2)) &&
    decide (p.1 < (b.1 - a.1) * (p.2 - a.2) / (b.2 - a.2) + a.1)

/-- Shapely `Polygon.contains` specialised to a point argument: true
exactly when `p` is interior to the simple polygon `poly` — on-boundary
points are rejected, and interiority is the odd-crossings test.  This is
the containment filter of `polygon_binning_to_points`
(helpers.py line 118). -/
def polyContainsB (poly : List Pt) (p : Pt) : Bool :=
  !onBoundaryB poly p &&
    ((ringEdges poly).countP (fun e => edgeCrossesB e.1 e.2 p)) % 2 == 1

/-- Axis-aligned bounding box `(minx, miny, maxx, maxy)` of a vertex
list, modelling `geometry.bounds` (helpers.py line 109); `none` on an
empty geometry. -/
def boundsOf : List Pt → Option (ℚ × ℚ × ℚ × ℚ)
  | [] => none
  | p :: ps =>
    some (ps.foldl
      (fun bb q => (min bb.1 q.1, min bb.2.1 q.2, max bb.2.2.1 q.1, max bb.2.2.2 q.2))
      (p.1, p.2, p.1, p.2))

/-- The inner `while y < maxy` loop of `polygon_binning_to_points`
(helpers.py lines 116-120), step-indexed by fuel: collects, in scan
order, the lattice points `(x, y)` that the containment filter retains,
stepping `y` by the resolution `r`.  `none` means the fuel ran out while
the loop condition still held. -/
def innerLoop (poly : List Pt) (r maxy x : ℚ) : Nat → ℚ → Option (List Pt)
  | 0, y => if y < maxy then none else some []
  | fuel + 1, y =>
    if y < maxy then
      (innerLoop poly r maxy x fuel (y + r)).map
        (fun rest => (if polyContainsB poly (x, y) then [((x, y) : Pt)] else []) ++ rest)
    else some []

/-- The outer `while x < maxx` loop of `polygon_binning_to_points`
(helpers.py lines 114-121), step-indexed by fuel: runs the inner loop at
each abscissa, stepping `x` by the resolution `r`. -/
def outerLoop (poly : List Pt) (r maxx maxy miny : ℚ) (fi : Nat) : Nat → ℚ → Option (List Pt)
  | 0, x => if x < maxx then none else some []
  | fuel + 1, x =>
    if x < maxx then
      match innerLoop poly r maxy x fi miny with
      | none => none
      | some col =>
        (outerLoop poly r maxx maxy miny fi fuel (x + r)).map (fun rest => col ++ rest)
    else some []

/-- The grid generator `polygon_binning_to_points` (helpers.py lines
86-127): reproject the single polygon to the metric frame with `proj`,
scan the lattice of its bounding box at pitch `resolution_m`, keep the
contained nodes, and map the result back with `projInv`.  The two fuels
bound the two `while` loops; `none` models a run that does not finish
within them. -/
def polygon_binning_to_points (proj projInv : Pt → Pt) (gdf : List Pt)
    (resolution_m : ℚ) (fi fo : Nat) : Option (List Pt) :=
  match boundsOf (gdf.map proj) with
  | none => none
  | some (minx, miny, maxx, maxy) =>
    (outerLoop (gdf.map proj) resolution_m maxx maxy miny fi fo minx).map
      (fun grid_points => grid_points.map projInv)

/-- The run of `polygon_binning_to_points` on this input terminates:
some fuel suffices for both `while` loops to finish. -/
def BinningTerminatesOn (proj projInv : Pt → Pt) (gdf : List Pt) (r : ℚ) : Prop :=
  ∃ fi fo out, polygon_binning_to_points proj projInv gdf r fi fo = some out

/-- Concrete test polygon: a 10 by 10 square (already in the metric
frame, so the identity projection is paired with it in tests). -/
def sqPoly : List Pt := [(0, 0), (10, 0), (10, 10), (0, 10)]

/-! ## The surface interpolator: data model -/

/-- Inclusive 500-sample linear ramp from `a` to `b`: one axis of
`np.mgrid[a:b:500j]` (helpers.py line 148). -/
def linspace500 (a b : ℚ) : List ℚ :=
  (List.range 500).map (fun i : ℕ => a + (i : ℚ) * (b - a) / 499)

/-- Bounding box of the point collection, modelling `gdf.total_bounds`
(helpers.py line 147); the all-NaN bounds of an empty collection are
modelled as `none`. -/
def total_bounds (pts : List Pt) : Option (ℚ × ℚ × ℚ × ℚ) :=
  boundsOf pts

/-- One node of the output lattice; a `none` coordinate models the NaN
that an empty input's NaN bounding box propagates into the lattice. -/
abbrev GridPt : Type := Option ℚ × Option ℚ

/-- The flattened 500 by 500 lattice
`np.mgrid[xmin:xmax:500j, ymin:ymax:500j]`, zipped in row-major order
exactly as at helpers.py line 161: node `500 * i + j` is `(x i, y j)`. -/
def gridNodes : Option (ℚ × ℚ × ℚ × ℚ) → List GridPt
  | some (xmin, ymin, xmax, ymax) =>
    (linspace500 xmin xmax).flatMap
      (fun x => (linspace500 ymin ymax).map (fun y => (some x, some y)))
  | none => List.replicate (500 * 500) (none, none)

/-- A triangle of a triangulation: three indices into the point list. -/
abbrev Tri : Type := Nat × Nat × Nat

/-- Sign test for membership of `q` in the closed triangle `(a, b, c)`:
the three edge cross products carry a common sign. -/
def triPtB (a b c q : Pt) : Bool :=
  (decide (0 ≤ crossQ a b q) && decide (0 ≤ crossQ b c q) && decide (0 ≤ crossQ c a q)) ||
    (decide (crossQ a b q ≤ 0) && decide (crossQ b c q ≤ 0) && decide (crossQ c a q ≤ 0))

/-- The three vertices of triangle `t` of the triangulation of `pts`. -/
def triVerts (pts : List Pt) (t : Tri) : Pt × Pt × Pt :=
  (pts.getD t.1 (0, 0), pts.getD t.2.1 (0, 0), pts.getD t.2.2 (0, 0))

/-- Membership of `q` in the closed simplex `t` of the triangulation,
as scipy's simplex walk resolves it. -/
def triContainsB (pts : List Pt) (t : Tri) (q : Pt) : Bool :=
  triPtB (triVerts pts t).1 (triVerts pts t).2.1 (triVerts pts t).2.2 q

/-- Executable convex-hull membership: by Caratheodory's theorem in the
plane, a point belongs to the convex hull of a set holding 3
non-collinear points exactly when it belongs to some non-degenerate
triangle with vertices drawn from the set. -/
def inHullB (pts : List Pt) (q : Pt) : Bool :=
  pts.any (fun a => pts.any (fun b => pts.any (fun c =>
    crossQ a b c != 0 && triPtB a b c q)))

/-- Barycentric interpolation of the vertex values of triangle `t` at
the query point `q`: the linear interpolant `griddata(method=linear)`
evaluates on one simplex of its Delaunay triangulation. -/
def baryValue (pts : List Pt) (vals : List ℚ) (t : Tri) (q : Pt) : ℚ :=
  let a := (triVerts pts t).1
  let b := (triVerts pts t).2.1
  let c := (triVerts pts t).2.2
  let dd := crossQ a b c
  (crossQ q b c / dd) * vals.getD t.1 0 + (crossQ a q c / dd) * vals.getD t.2.1 0 +
    (crossQ a b q / dd) * vals.getD t.2.2 0

/-- The input set has fewer than 3 non-collinear points: the degenerate
configuration on which `scipy.spatial.Delaunay` — hence
`griddata(method=linear)` — raises `QhullError`. -/
def degenerateB (pts : List Pt) : Bool :=
  !(pts.any (fun a => pts.any (fun b => pts.any (fun c => crossQ a b c != 0))))

/-- Value of the interpolated surface at one lattice node: the
barycentric interpolant of the first triangle whose closed simplex holds
the node, and the no-data sentinel (`fill_value` NaN) when no simplex
does — in particular everywhere strictly outside the convex hull — and
at NaN-coordinate nodes. -/
def interpNode (pts : List Pt) (vals : List ℚ) (T : List Tri) : GridPt → Option ℚ
  | (some x, some y) =>
    match T.find? (fun t => triContainsB pts t (x, y)) with
    | some t => some (baryValue pts vals t (x, y))
    | none => none
  | _ => none

/-- The exceptions `interpolate_point_measures` can raise, in the
specification's taxonomy: `missingAttribute` is the `KeyError` of a
missing dataframe column, `insufficientData` the `QhullError` of a
degenerate triangulation. -/
inductive InterpErr where
  | missingAttribute
  | insufficientData
deriving DecidableEq

/-- Model of `scipy.interpolate.griddata(points, values, grid,
method=linear)` (helpers.py line 154), parametrised by the Delaunay
triangulation `T` scipy computes internally: raises `QhullError` on
degenerate input, otherwise evaluates the piecewise-linear interpolant
at every lattice node. -/
def griddata (pts : List Pt) (vals : List ℚ) (T : List Tri) (nodes : List GridPt) :
    Except InterpErr (List (Option ℚ)) :=
  if degenerateB pts then .error .insufficientData
  else .ok (nodes.map (interpNode pts vals T))

/-- The input GeoDataFrame of `interpolate_point_measures`: the geometry
column and the named measure columns. -/
structure GeoFrame where
  pts : List Pt
  cols : List (String × List ℚ)

/-- Column lookup `gdf[measure]` (helpers.py line 153); `none` models
the `KeyError` a missing column raises. -/
def getCol (g : GeoFrame) (m : String) : Option (List ℚ) :=
  (g.cols.find? (fun c => c.1 == m)).map (fun c => c.2)

/-- The measure loop of `interpolate_point_measures` (helpers.py lines
152-155): for each selected measure in order, look its column up, then
interpolate it onto the lattice; the first exception raised aborts the
call. -/
def interpLoop (T : List Tri) (g : GeoFrame) (nodes : List GridPt) :
    List String → Except InterpErr (List (String × List (Option ℚ)))
  | [] => .ok []
  | m :: rest =>
    match getCol g m with
    | none => .error .missingAttribute
    | some vals =>
      match griddata g.pts vals T nodes with
      | .error e => .error e
      | .ok ivs =>
        match interpLoop T g nodes rest with
        | .error e => .error e
        | .ok others => .ok ((m, ivs) :: others)

/-- The assembled output of `interpolate_point_measures` (helpers.py
lines 157-162): one interpolated column per selected measure, plus the
flattened lattice as the geometry column. -/
structure InterpResult where
  cols : List (String × List (Option ℚ))
  geometry : List GridPt
deriving DecidableEq

/-- The surface interpolator `interpolate_point_measures` (helpers.py
lines 129-164), parametrised by the Delaunay triangulation `T` of the
input points that `griddata` computes internally: build the 500 by 500
lattice over the input's bounding box, interpolate every selected
measure onto it, and assemble one record per lattice node. -/
def interpolate_point_measures (T : List Tri) (g : GeoFrame)
    (selected_measures : List String) : Except InterpErr InterpResult :=
  match interpLoop T g (gridNodes (total_bounds g.pts)) selected_measures with
  | .error e => .error e
  | .ok cs => .ok ⟨cs, gridNodes (total_bounds g.pts)⟩

/-- Well-formedness of a triangulation of `pts`, as
`scipy.spatial.Delaunay` guarantees it: every simplex has in-range
vertex indices and non-zero area. -/
def TriWF (pts : List Pt) (T : List Tri) : Prop :=
  ∀ t ∈ T, t.1 < pts.length ∧ t.2.1 < pts.length ∧ t.2.2 < pts.length ∧
    crossQ (triVerts pts t).1 (triVerts pts t).2.1 (triVerts pts t).2.2 ≠ 0

instance (pts : List Pt) (T : List Tri) : Decidable (TriWF pts T) := by
  unfold TriWF
  infer_instance

/-- Concrete test frame: three non-collinear points carrying the measure
column `m`. -/
def gFrame3 : GeoFrame :=
  ⟨[(0, 0), (4, 0), (0, 4)], [("m", [10, 20, 30])]⟩

/-- Concrete triangulation of the three points of `gFrame3`: the single
triangle through them. -/
def triT3 : List Tri := [(0, 1, 2)]

/-! ## Loop lemmas for the grid generator -/

theorem innerLoop_stop (poly : List Pt) (r maxy x y : ℚ) (h : ¬ y < maxy) :
    ∀ fuel, innerLoop poly r maxy x fuel y = some [] := by
  intro fuel
  cases fuel with
  | zero => simp [innerLoop, h]
  | succ f => simp [innerLoop, h]

theorem innerLoop_mono (poly : List Pt) (r maxy x : ℚ) :
    ∀ {f f' : Nat} {y : ℚ} {l : List Pt}, f ≤ f' →
      innerLoop poly r maxy x f y = some l → innerLoop poly r maxy x f' y = some l := by
  intro f
  induction f with
  | zero =>
    intro f' y l _ h0
    by_cases hy : y < maxy
    · simp [innerLoop, hy] at h0
    · have := innerLoop_stop poly r maxy x y hy f'
      simp [innerLoop, hy] at h0
      simp [this, h0]
  | succ f ih =>
    intro f' y l hle h0
    obtain ⟨f'', rfl⟩ : ∃ f'', f' = f'' + 1 := ⟨f' - 1, by omega⟩
    by_cases hy : y < maxy
    · simp only [innerLoop, if_pos hy] at h0 ⊢
      rcases Option.map_eq_some'.1 h0 with ⟨rest, hrest, hl⟩
      rw [ih (by omega) hrest]
      simp [hl]
    · rw [innerLoop_stop poly r maxy x y hy] at h0 ⊢
      exact h0

theorem outerLoop_stop (poly : List Pt) (r maxx maxy miny x : ℚ) (fi : Nat)
    (h : ¬ x < maxx) :
    ∀ fuel, outerLoop poly r maxx maxy miny fi fuel x = some [] := by
  intro fuel
  cases fuel with
  | zero => simp [outerLoop, h]
  | succ f => simp [outerLoop, h]

theorem outerLoop_mono (poly : List Pt) (r maxx maxy miny : ℚ) :
    ∀ {fi fi' fo fo' : Nat} {x : ℚ} {l : List Pt}, fi ≤ fi' → fo ≤ fo' →
      outerLoop poly r maxx maxy miny fi fo x = some l →
      outerLoop poly r maxx maxy miny fi' fo' x = some l := by
  intro fi fi' fo
  induction fo with
  | zero =>
    intro fo' x l _ _ h0
    by_cases hx : x < maxx
    · simp [outerLoop, hx] at h0
    · have := outerLoop_stop poly r maxx maxy miny x fi' hx fo'
      simp [outerLoop, hx] at h0
      simp [this, h0]
  | succ fo ih =>
    intro fo' x l hfi hfo h0
    obtain ⟨fo'', rfl⟩ : ∃ f'', fo' = f'' + 1 := ⟨fo' - 1, by omega⟩
    by_cases hx : x < maxx
    · simp only [outerLoop, if_pos hx] at h0 ⊢
      cases hin : innerLoop poly r maxy x fi miny with
      | none => rw [hin] at h0; exact absurd h0 (by simp)
      | some col =>
        rw [hin] at h0
        rw [innerLoop_mono poly r maxy x hfi hin]
        rcases Option.map_eq_some'.1 h0 with ⟨rest, hrest, hl⟩
        rw [ih hfi (by omega) hrest]
        simp [hl]
    · rw [outerLoop_stop poly r maxx maxy miny x fi hx] at h0
      rw [outerLoop_stop poly r maxx maxy miny x fi' hx]
      exact h0

theorem innerLoop_isSome (poly : List Pt) (r maxy x : ℚ) :
    ∀ (fuel : Nat) (y : ℚ), maxy - y ≤ r * fuel →
      (innerLoop poly r maxy x fuel y).isSome := by
  intro fuel
  induction fuel with
  | zero =>
    intro y hy
    have : ¬ y < maxy := by push_cast at hy; nlinarith
    simp [innerLoop, this]
  | succ f ih =>
    intro y hy
    by_cases hlt : y < maxy
    · have hrec : maxy - (y + r) ≤ r * f := by push_cast at hy ⊢; nlinarith
      rcases Option.isSome_iff_exists.1 (ih (y + r) hrec) with ⟨v, hv⟩
      simp [innerLoop, if_pos hlt, hv]
    · simp [innerLoop, hlt]

theorem outerLoop_isSome (poly : List Pt) (r maxx maxy miny : ℚ)
    (fi : Nat) (hfi : maxy - miny ≤ r * fi) :
    ∀ (fo : Nat) (x : ℚ), maxx - x ≤ r * fo →
      (outerLoop poly r maxx maxy miny fi fo x).isSome := by
  intro fo
  induction fo with
  | zero =>
    intro x hx
    have : ¬ x < maxx := by push_cast at hx; nlinarith
    simp [outerLoop, this]
  | succ f ih =>
    intro x hx
    by_cases hlt : x < maxx
    · have hin := innerLoop_isSome poly r maxy x fi miny hfi
      rcases Option.isSome_iff_exists.1 hin with ⟨col, hcol⟩
      have hrec : maxx - (x + r) ≤ r * f := by push_cast at hx ⊢; nlinarith
      rcases Option.isSome_iff_exists.1 (ih (x + r) hrec) with ⟨v, hv⟩
      simp [outerLoop, if_pos hlt, hcol, hv]
    · simp [outerLoop, hlt]

theorem innerLoop_mem (poly : List Pt) (r maxy x : ℚ) :
    ∀ {fuel : Nat} {y : ℚ} {l : List Pt}, innerLoop poly r maxy x fuel y = some l →
      ∀ q ∈ l, polyContainsB poly q = true := by
  intro fuel
  induction fuel with
  | zero =>
    intro y l h q hq
    by_cases hy : y < maxy
    · simp [innerLoop, hy] at h
    · simp [innerLoop, hy] at h
      subst h; simp at hq
  | succ f ih =>
    intro y l h q hq
    by_cases hy : y < maxy
    · simp only [innerLoop, if_pos hy] at h
      rcases Option.map_eq_some'.1 h with ⟨rest, hrest, hl⟩
      subst hl
      rcases List.mem_append.1 hq with hq1 | hq2
      · by_cases hc : polyContainsB poly (x, y) = true
        · simp [hc] at hq1; subst hq1; exact hc
        · simp [Bool.eq_false_iff.2 hc] at hq1
      · exact ih hrest q hq2
    · simp [innerLoop, hy] at h
      subst h; simp at hq

theorem outerLoop_mem (poly : List Pt) (r maxx maxy miny : ℚ) (fi : Nat) :
    ∀ {fo : Nat} {x : ℚ} {l : List Pt}, outerLoop poly r maxx maxy miny fi fo x = some l →
      ∀ q ∈ l, polyContainsB poly q = true := by
  intro fo
  induction fo with
  | zero =>
    intro x l h q hq
    by_cases hx : x < maxx
    · simp [outerLoop, hx] at h
    · simp [outerLoop, hx] at h
      subst h; simp at hq
  | succ f ih =>
    intro x l h q hq
    by_cases hx : x < maxx
    · simp only [outerLoop, if_pos hx] at h
      cases hin : innerLoop poly r maxy x fi miny with
      | none => rw [hin] at h; exact absurd h (by simp)
      | some col =>
        rw [hin] at h
        rcases Option.map_eq_some'.1 h with ⟨rest, hrest, hl⟩
        subst hl
        rcases List.mem_append.1 hq with hq1 | hq2
        · exact innerLoop_mem poly r maxy x hin q hq1
        · exact ih hrest q hq2
    · simp [outerLoop, hx] at h
      subst h; simp at hq

theorem innerLoop_none_of_nonpos (poly : List Pt) (r maxy x : ℚ)
    (hr : r ≤ 0) : ∀ (fuel : Nat) (y : ℚ), y < maxy →
      innerLoop poly r maxy x fuel y = none := by
  intro fuel
  induction fuel with
  | zero => intro y hy; simp [innerLoop, hy]
  | succ f ih =>
    intro y hy
    have : y + r < maxy := by linarith
    simp [innerLoop, hy, ih (y + r) this]

theorem outerLoop_none_of_nonpos (poly : List Pt) (r maxx maxy miny x : ℚ)
    (hr : r ≤ 0) (hy : miny < maxy) (hx : x < maxx) :
    ∀ fi fo, outerLoop poly r maxx maxy miny fi fo x = none := by
  intro fi fo
  cases fo with
  | zero => simp [outerLoop, hx]
  | succ f =>
    simp [outerLoop, hx, innerLoop_none_of_nonpos poly r maxy x hr fi miny hy]

theorem boundsOf_isSome (l : List Pt) (h : l ≠ []) : (boundsOf l).isSome := by
  cases l with
  | nil => exact absurd rfl h
  | cons p ps => simp [boundsOf]

/-! ## Unfolding helpers for the grid generator -/

theorem binning_eq (proj projInv : Pt → Pt) (gdf : List Pt) (r : ℚ) (fi fo : Nat)
    (minx miny maxx maxy : ℚ)
    (hb : boundsOf (gdf.map proj) = some (minx, miny, maxx, maxy)) :
    polygon_binning_to_points proj projInv gdf r fi fo =
      (outerLoop (gdf.map proj) r maxx maxy miny fi fo minx).map
        (fun grid_points => grid_points.map projInv) := by
  unfold polygon_binning_to_points
  rw [hb]

theorem binning_eq_none (proj projInv : Pt → Pt) (gdf : List Pt) (r : ℚ) (fi fo : Nat)
    (hb : boundsOf (gdf.map proj) = none) :
    polygon_binning_to_points proj projInv gdf r fi fo = none := by
  unfold polygon_binning_to_points
  rw [hb]

/-! ## Claim theorems for the grid generator -/

/-- C1: for every resolution and every single-polygon input, every point
returned by `polygon_binning_to_points`, once reprojected into the metric
frame where containment is tested, lies inside the input polygon (here
strictly inside: the containment test is shapely `contains`, which
rejects the boundary, satisfying the boundary policy of the claim). -/
theorem binning_points_inside_polygon (proj projInv : Pt → Pt) (poly : List Pt)
    (r : ℚ) (fi fo : Nat) (out : List Pt)
    (hinv : ∀ p, proj (projInv p) = p)
    (hrun : polygon_binning_to_points proj projInv poly r fi fo = some out) :
    ∀ q ∈ out, polyContainsB (poly.map proj) (proj q) = true := by
  intro q hq
  cases hbb : boundsOf (poly.map proj) with
  | none =>
    rw [binning_eq_none proj projInv poly r fi fo hbb] at hrun
    exact absurd hrun (by simp)
  | some bb =>
    obtain ⟨minx, miny, maxx, maxy⟩ := bb
    rw [binning_eq proj projInv poly r fi fo minx miny maxx maxy hbb] at hrun
    rcases Option.map_eq_some'.1 hrun with ⟨l, hl, hout⟩
    subst hout
    rcases List.mem_map.1 hq with ⟨p, hp, rfl⟩
    rw [hinv p]
    exact outerLoop_mem (poly.map proj) r maxx maxy miny fi hl p hp

/-- Grid returned by the reference run on `sqPoly` with resolution 3:
lattice nodes on the square's boundary are rejected, the nine interior
nodes remain, scanned column by column. -/
def sqGridOut : List Pt := [(3, 3), (3, 6), (3, 9), (6, 3), (6, 6), (6, 9), (9, 3), (9, 6), (9, 9)]

/-- C1 witness: the reference run on the square, with the identity pair
of projections, returns points that the containment test accepts. -/
theorem binning_points_inside_polygon_witness :
    polyContainsB (sqPoly.map id) (id ((3 : ℚ), (3 : ℚ))) = true :=
  binning_points_inside_polygon id id sqPoly 3 12 12 sqGridOut (fun p => rfl)
    (by with_unfolding_all decide) ((3 : ℚ), (3 : ℚ)) (by with_unfolding_all decide)

/-- C2 counterexample: with resolution 0 on a polygon with a
non-degenerate bounding box, `polygon_binning_to_points` does not
terminate — no fuel suffices for its `while` loops, because
`x += resolution_m` never moves the cursor.  The claim's assertion that a
non-positive resolution yields a normal (possibly empty) return is
false on the code. -/
theorem binning_nonpos_resolution_diverges : ¬ BinningTerminatesOn id id sqPoly 0 := by
  rintro ⟨fi, fo, out, h⟩
  have hb : boundsOf (sqPoly.map id) = some (0, 0, 10, 10) := by with_unfolding_all decide
  rw [binning_eq id id sqPoly 0 fi fo 0 0 10 10 hb] at h
  rw [outerLoop_none_of_nonpos (sqPoly.map id) 0 10 10 0 0 le_rfl (by norm_num) (by norm_num)
    fi fo] at h
  exact absurd h (by simp)

/-- C2 (amended): for every positive resolution — in particular one
larger than the bounding-box extent — and every non-empty polygon, the
scan of `polygon_binning_to_points` terminates and returns normally (a
possibly empty collection); for a non-positive resolution and a
non-degenerate bounding box it loops forever instead. -/
theorem binning_terminates_of_pos_resolution (proj projInv : Pt → Pt) (poly : List Pt)
    (r : ℚ) (hr : 0 < r) (hne : poly ≠ []) :
    BinningTerminatesOn proj projInv poly r := by
  have hmap : poly.map proj ≠ [] := by simpa using hne
  rcases Option.isSome_iff_exists.1 (boundsOf_isSome (poly.map proj) hmap) with ⟨bb, hb⟩
  obtain ⟨minx, miny, maxx, maxy⟩ := bb
  have h1 : maxy - miny ≤ r * ⌈(maxy - miny) / r⌉₊ := by
    have hc := Nat.le_ceil ((maxy - miny) / r)
    rw [div_le_iff₀ hr] at hc
    linarith
  have h2 : maxx - minx ≤ r * ⌈(maxx - minx) / r⌉₊ := by
    have hc := Nat.le_ceil ((maxx - minx) / r)
    rw [div_le_iff₀ hr] at hc
    linarith
  rcases Option.isSome_iff_exists.1
      (outerLoop_isSome (poly.map proj) r maxx maxy miny ⌈(maxy - miny) / r⌉₊ h1
        ⌈(maxx - minx) / r⌉₊ minx h2) with ⟨l, hl⟩
  refine ⟨⌈(maxy - miny) / r⌉₊, ⌈(maxx - minx) / r⌉₊, l.map projInv, ?_⟩
  rw [binning_eq proj projInv poly r _ _ minx miny maxx maxy hb, hl]
  rfl

/-- C2 witness: the reference square with resolution 3 terminates. -/
theorem binning_terminates_witness : BinningTerminatesOn id id sqPoly 3 :=
  binning_terminates_of_pos_resolution id id sqPoly 3 (by norm_num) (by simp [sqPoly])

/-- C8: `polygon_binning_to_points` is deterministic — any two runs on
the same polygon and the same resolution that return at all (whatever
execution budget each was granted) return the identical list of points,
same points in the same order. -/
theorem binning_deterministic (proj projInv : Pt → Pt) (poly : List Pt) (r : ℚ)
    (fi1 fo1 fi2 fo2 : Nat) (l1 l2 : List Pt)
    (h1 : polygon_binning_to_points proj projInv poly r fi1 fo1 = some l1)
    (h2 : polygon_binning_to_points proj projInv poly r fi2 fo2 = some l2) :
    l1 = l2 := by
  cases hbb : boundsOf (poly.map proj) with
  | none =>
    rw [binning_eq_none proj projInv poly r fi1 fo1 hbb] at h1
    exact absurd h1 (by simp)
  | some bb =>
    obtain ⟨minx, miny, maxx, maxy⟩ := bb
    rw [binning_eq proj projInv poly r fi1 fo1 minx miny maxx maxy hbb] at h1
    rw [binning_eq proj projInv poly r fi2 fo2 minx miny maxx maxy hbb] at h2
    rcases Option.map_eq_some'.1 h1 with ⟨g1, hg1, hl1⟩
    rcases Option.map_eq_some'.1 h2 with ⟨g2, hg2, hl2⟩
    have e1 := outerLoop_mono (poly.map proj) r maxx maxy miny
      (Nat.le_max_left fi1 fi2) (Nat.le_max_left fo1 fo2) hg1
    have e2 := outerLoop_mono (poly.map proj) r maxx maxy miny
      (Nat.le_max_right fi1 fi2) (Nat.le_max_right fo1 fo2) hg2
    rw [e1] at e2
    cases Option.some.inj e2
    rw [← hl1, ← hl2]

/-- C8 witness: two runs on the square with different execution budgets
both return the reference grid. -/
theorem binning_deterministic_witness : sqGridOut = sqGridOut :=
  binning_deterministic id id sqPoly 3 12 12 20 25 sqGridOut sqGridOut
    (by with_unfolding_all decide) (by with_unfolding_all decide)

/-- C10: the containment test is boundary-exclusive — a lattice node
lying exactly on the polygon's boundary in the projected frame is
rejected by the filter, so its preimage under the back-projection is
never part of the returned collection. -/
theorem binning_excludes_boundary (proj projInv : Pt → Pt) (poly : List Pt)
    (r : ℚ) (fi fo : Nat) (out : List Pt) (p : Pt)
    (hinj : Function.Injective projInv)
    (hb : onBoundaryB (poly.map proj) p = true)
    (hrun : polygon_binning_to_points proj projInv poly r fi fo = some out) :
    polyContainsB (poly.map proj) p = false ∧ projInv p ∉ out := by
  have hfalse : polyContainsB (poly.map proj) p = false := by
    rw [polyContainsB, hb]
    simp
  refine ⟨hfalse, fun hmem => ?_⟩
  cases hbb : boundsOf (poly.map proj) with
  | none =>
    rw [binning_eq_none proj projInv poly r fi fo hbb] at hrun
    exact absurd hrun (by simp)
  | some bb =>
    obtain ⟨minx, miny, maxx, maxy⟩ := bb
    rw [binning_eq proj projInv poly r fi fo minx miny maxx maxy hbb] at hrun
    rcases Option.map_eq_some'.1 hrun with ⟨l, hl, hout⟩
    subst hout
    rcases List.mem_map.1 hmem with ⟨q, hq, hqp⟩
    have hqp2 : q = p := hinj hqp
    subst hqp2
    have hc := outerLoop_mem (poly.map proj) r maxx maxy miny fi hl q hq
    rw [hc] at hfalse
    exact absurd hfalse (by simp)

/-- C10 witness: the node `(0, 5)` lies on the square's boundary and is
absent from the reference run's output. -/
theorem binning_excludes_boundary_witness :
    polyContainsB (sqPoly.map id) ((0 : ℚ), (5 : ℚ)) = false ∧
      id ((0 : ℚ), (5 : ℚ)) ∉ sqGridOut :=
  binning_excludes_boundary id id sqPoly 3 12 12 sqGridOut ((0 : ℚ), (5 : ℚ))
    (fun a b h => h) (by with_unfolding_all decide) (by with_unfolding_all decide)

/-! ## Unfolding helpers for the surface interpolator -/

theorem interp_error_of_loop (T : List Tri) (g : GeoFrame) (sel : List String)
    (e : InterpErr)
    (h : interpLoop T g (gridNodes (total_bounds g.pts)) sel = .error e) :
    interpolate_point_measures T g sel = .error e := by
  unfold interpolate_point_measures
  rw [h]

theorem interp_ok_elim (T : List Tri) (g : GeoFrame) (sel : List String)
    (out : InterpResult)
    (h : interpolate_point_measures T g sel = .ok out) :
    interpLoop T g (gridNodes (total_bounds g.pts)) sel = .ok out.cols ∧
      out.geometry = gridNodes (total_bounds g.pts) := by
  unfold interpolate_point_measures at h
  cases hl : interpLoop T g (gridNodes (total_bounds g.pts)) sel with
  | error e => rw [hl] at h; exact absurd h (by simp)
  | ok cs =>
    rw [hl] at h
    have hout := Except.ok.inj h
    subst hout
    exact ⟨rfl, rfl⟩

theorem griddata_ok_elim (pts : List Pt) (vals : List ℚ) (T : List Tri)
    (nodes : List GridPt) (ivs : List (Option ℚ))
    (h : griddata pts vals T nodes = .ok ivs) :
    degenerateB pts = false ∧ ivs = nodes.map (interpNode pts vals T) := by
  unfold griddata at h
  by_cases hd : degenerateB pts = true
  · rw [if_pos hd] at h
    exact absurd h (by simp)
  · rw [if_neg hd] at h
    exact ⟨Bool.eq_false_iff.2 hd, (Except.ok.inj h).symm⟩

theorem interpLoop_ok_mem (T : List Tri) (g : GeoFrame) (nodes : List GridPt) :
    ∀ {sel : List String} {cs : List (String × List (Option ℚ))},
      interpLoop T g nodes sel = .ok cs →
      ∀ c ∈ cs, ∃ vals, getCol g c.1 = some vals ∧ degenerateB g.pts = false ∧
        c.2 = nodes.map (interpNode g.pts vals T) := by
  intro sel
  induction sel with
  | nil =>
    intro cs h c hc
    simp only [interpLoop] at h
    cases Except.ok.inj h
    simp at hc
  | cons m rest ih =>
    intro cs h c hc
    simp only [interpLoop] at h
    cases hg : getCol g m with
    | none => rw [hg] at h; exact absurd h (by simp)
    | some vals =>
      rw [hg] at h
      dsimp only at h
      cases hgr : griddata g.pts vals T nodes with
      | error e => rw [hgr] at h; exact absurd h (by simp)
      | ok ivs =>
        rw [hgr] at h
        rcases griddata_ok_elim g.pts vals T nodes ivs hgr with ⟨hd, hivs⟩
        cases hrest : interpLoop T g nodes rest with
        | error e => rw [hrest] at h; exact absurd h (by simp)
        | ok others =>
          rw [hrest] at h
          have hcs := Except.ok.inj h
          subst hcs
          rcases List.mem_cons.1 hc with hc1 | hc2
          · subst hc1
            exact ⟨vals, hg, hd, hivs⟩
          · exact ih hrest c hc2

theorem interp_first_present_degenerate (T : List Tri) (g : GeoFrame) (m : String)
    (rest : List String) (vals : List ℚ)
    (hd : degenerateB g.pts = true) (hm : getCol g m = some vals) :
    interpolate_point_measures T g (m :: rest) = .error .insufficientData := by
  apply interp_error_of_loop
  simp [interpLoop, hm, griddata, hd]

theorem interpLoop_missing (T : List Tri) (g : GeoFrame) (nodes : List GridPt)
    (m : String) (rest : List String) (hm : getCol g m = none)
    (hnd : degenerateB g.pts = false) :
    ∀ pre : List String, (∀ p ∈ pre, (getCol g p).isSome) →
      interpLoop T g nodes (pre ++ m :: rest) = .error .missingAttribute := by
  intro pre
  induction pre with
  | nil =>
    intro _
    simp [interpLoop, hm]
  | cons p pre ih =>
    intro hpre
    rcases Option.isSome_iff_exists.1 (hpre p (by simp)) with ⟨vals, hvals⟩
    have hrec := ih (fun q hq => hpre q (by simp [hq]))
    simp [interpLoop, hvals, griddata, hnd, hrec]

/-! ## Claim theorems for the surface interpolator: error routing -/

/-- C4 counterexample: a non-empty two-point collection with the present
attribute listed before the absent one fails with the
insufficient-data error (the degenerate triangulation of the first,
present measure is hit before the missing column is ever looked up),
not with the missing-attribute error the claim requires. -/
theorem interp_missing_attribute_cex :
    interpolate_point_measures [] ⟨[(0, 0), (1, 1)], [("a", [1, 2])]⟩ ["a", "b"]
        = .error .insufficientData ∧
      interpolate_point_measures [] ⟨[(0, 0), (1, 1)], [("a", [1, 2])]⟩ ["a", "b"]
        ≠ .error .missingAttribute := by
  have h : interpolate_point_measures [] ⟨[(0, 0), (1, 1)], [("a", [1, 2])]⟩ ["a", "b"]
      = .error .insufficientData := by with_unfolding_all rfl
  refine ⟨h, ?_⟩
  rw [h]
  simp

/-- C4 (amended): if some requested attribute is absent from the input
schema and the input has at least 3 non-collinear points (so that
interpolating the present attributes listed before the first absent one
cannot fail first), `interpolate_point_measures` fails with the
missing-attribute error. -/
theorem interp_missing_attribute_error (T : List Tri) (g : GeoFrame)
    (pre rest : List String) (m : String)
    (hpre : ∀ p ∈ pre, (getCol g p).isSome)
    (hm : getCol g m = none)
    (hnd : degenerateB g.pts = false) :
    interpolate_point_measures T g (pre ++ m :: rest) = .error .missingAttribute :=
  interp_error_of_loop T g (pre ++ m :: rest) .missingAttribute
    (interpLoop_missing T g (gridNodes (total_bounds g.pts)) m rest hm hnd pre hpre)

/-- C4 witness: requesting the present measure then an absent one on
three non-collinear points fails with the missing-attribute error. -/
theorem interp_missing_attribute_witness :
    interpolate_point_measures [] gFrame3 (["m"] ++ "zzz" :: []) = .error .missingAttribute :=
  interp_missing_attribute_error [] gFrame3 ["m"] [] "zzz"
    (by with_unfolding_all decide) (by with_unfolding_all decide)
    (by with_unfolding_all decide)

/-- C5 counterexample: two points (degenerate triangulation) with their
measure requested make `interpolate_point_measures` raise the
insufficient-data error instead of returning an all-undefined grid. -/
theorem interp_degenerate_no_grid_cex :
    interpolate_point_measures [] ⟨[(0, 0), (1, 1)], [("m", [1, 2])]⟩ ["m"]
        = .error .insufficientData ∧
      ¬ ∃ out, interpolate_point_measures [] ⟨[(0, 0), (1, 1)], [("m", [1, 2])]⟩ ["m"]
        = .ok out := by
  have h : interpolate_point_measures [] ⟨[(0, 0), (1, 1)], [("m", [1, 2])]⟩ ["m"]
      = .error .insufficientData := by with_unfolding_all rfl
  refine ⟨h, ?_⟩
  rintro ⟨out, hout⟩
  rw [hout] at h
  exact absurd h (by simp)

/-- C5 (amended): for every input collection with fewer than 3
non-collinear points whose first requested attribute is present in the
schema, `interpolate_point_measures` raises the insufficient-data error
(scipy's degenerate-triangulation failure) rather than returning an
all-undefined grid. -/
theorem interp_degenerate_raises (T : List Tri) (g : GeoFrame) (m : String)
    (rest : List String) (vals : List ℚ)
    (hd : degenerateB g.pts = true) (hm : getCol g m = some vals) :
    interpolate_point_measures T g (m :: rest) = .error .insufficientData :=
  interp_first_present_degenerate T g m rest vals hd hm

/-- C5 witness: three collinear points with their measure requested
raise the insufficient-data error. -/
theorem interp_degenerate_raises_witness :
    interpolate_point_measures [] ⟨[(0, 0), (2, 2), (5, 5)], [("m", [1, 2, 3])]⟩ ["m"]
        = .error .insufficientData :=
  interp_degenerate_raises [] ⟨[(0, 0), (2, 2), (5, 5)], [("m", [1, 2, 3])]⟩ "m" [] [1, 2, 3]
    (by with_unfolding_all decide) (by with_unfolding_all decide)

/-- C6 counterexample: on an empty point collection whose schema lacks
the requested attribute, the column lookup fails first, so the call
raises the missing-attribute error, not the insufficient-data error the
claim promises regardless of the attribute list. -/
theorem interp_empty_error_kind_cex :
    interpolate_point_measures [] ⟨[], []⟩ ["m"] = .error .missingAttribute ∧
      interpolate_point_measures [] ⟨[], []⟩ ["m"] ≠ .error .insufficientData := by
  have h : interpolate_point_measures [] ⟨[], []⟩ ["m"] = .error .missingAttribute := by
    with_unfolding_all rfl
  refine ⟨h, ?_⟩
  rw [h]
  simp

/-- C6 (amended): for an empty input point collection whose first
requested attribute is present in the schema (as a zero-length column),
`interpolate_point_measures` fails with the insufficient-data error; if
the first requested attribute is absent it fails with the
missing-attribute error instead. -/
theorem interp_empty_insufficient (T : List Tri) (g : GeoFrame) (m : String)
    (rest : List String) (vals : List ℚ)
    (hempty : g.pts = []) (hm : getCol g m = some vals) :
    interpolate_point_measures T g (m :: rest) = .error .insufficientData := by
  apply interp_first_present_degenerate T g m rest vals _ hm
  rw [hempty]
  rfl

/-- C6 witness: an empty collection carrying an empty column for the
requested measure raises the insufficient-data error. -/
theorem interp_empty_insufficient_witness :
    interpolate_point_measures [] ⟨[], [("m", [])]⟩ ["m"] = .error .insufficientData :=
  interp_empty_insufficient [] ⟨[], [("m", [])]⟩ "m" [] [] rfl
    (by with_unfolding_all decide)

/-! ## Lattice-shape lemmas for the surface interpolator -/

theorem linspace500_length (a b : ℚ) : (linspace500 a b).length = 500 := by
  rw [linspace500, List.length_map, List.length_range]

theorem linspace500_get_zero (a b : ℚ) (h : 0 < (linspace500 a b).length) :
    (linspace500 a b).get ⟨0, h⟩ = a := by
  simp only [linspace500, List.get_eq_getElem, List.getElem_map, List.getElem_range]
  norm_num

theorem linspace500_get_last (a b : ℚ) (h : 499 < (linspace500 a b).length) :
    (linspace500 a b).get ⟨499, h⟩ = b := by
  simp only [linspace500, List.get_eq_getElem, List.getElem_map, List.getElem_range]
  norm_num

theorem flatMap_prod_length {α β γ : Type} (f : α → β → γ) (la : List α) (lb : List β) :
    (la.flatMap (fun x => lb.map (fun y => f x y))).length = lb.length * la.length := by
  induction la with
  | nil => simp
  | cons a la ih =>
    rw [List.flatMap_cons, List.length_append, List.length_map, ih, List.length_cons,
      Nat.mul_succ]
    omega

theorem flatMap_prod_getD {α β γ : Type} (f : α → β → γ) (d : γ) :
    ∀ (la : List α) (lb : List β) (i j : Nat) (hi : i < la.length) (hj : j < lb.length),
      (la.flatMap (fun x => lb.map (fun y => f x y))).getD (lb.length * i + j) d
        = f (la.get ⟨i, hi⟩) (lb.get ⟨j, hj⟩) := by
  intro la
  induction la with
  | nil => intro lb i j hi hj; simp at hi
  | cons a la ih =>
    intro lb i j hi hj
    cases i with
    | zero =>
      rw [List.flatMap_cons, List.getD_append _ _ _ _ (by simpa using hj)]
      rw [List.getD_eq_getElem _ _ (by simpa using hj)]
      simp [List.getElem_map, List.get_eq_getElem]
    | succ i2 =>
      rw [List.flatMap_cons, List.getD_append_right _ _ _ _ (by
        rw [List.length_map, Nat.mul_succ]; omega)]
      rw [show lb.length * (i2 + 1) + j - (lb.map (fun y => f a y)).length
          = lb.length * i2 + j by rw [List.length_map, Nat.mul_succ]; omega]
      exact ih lb i2 j (by simpa using hi) hj

theorem gridNodes_length (bb : Option (ℚ × ℚ × ℚ × ℚ)) :
    (gridNodes bb).length = 500 * 500 := by
  cases bb with
  | none => simp only [gridNodes, List.length_replicate]
  | some bb4 =>
    obtain ⟨xmin, ymin, xmax, ymax⟩ := bb4
    simp only [gridNodes]
    rw [flatMap_prod_length (fun x y => ((some x, some y) : GridPt)), linspace500_length,
      linspace500_length]

theorem gridNodes_getD (xmin ymin xmax ymax : ℚ) (i j : Nat) (hi : i < 500) (hj : j < 500) :
    (gridNodes (some (xmin, ymin, xmax, ymax))).getD (500 * i + j) (none, none)
      = (some ((linspace500 xmin xmax).get ⟨i, by rw [linspace500_length]; exact hi⟩),
         some ((linspace500 ymin ymax).get ⟨j, by rw [linspace500_length]; exact hj⟩)) := by
  have h := flatMap_prod_getD (fun x y => ((some x, some y) : GridPt)) (none, none)
    (linspace500 xmin xmax) (linspace500 ymin ymax) i j
    (by rw [linspace500_length]; exact hi) (by rw [linspace500_length]; exact hj)
  simp only [gridNodes]
  rw [show (500 : Nat) * i + j = (linspace500 ymin ymax).length * i + j by
    rw [linspace500_length]]
  exact h

/-! ## Claim theorems: lattice shape -/

/-- C7 counterexample: a non-empty one-point collection with its measure
requested makes `interpolate_point_measures` raise, so no output with
one record per lattice node is produced for it. -/
theorem interp_records_cex :
    interpolate_point_measures [] ⟨[(0, 0)], [("m", [1])]⟩ ["m"]
        = .error .insufficientData ∧
      ¬ ∃ out, interpolate_point_measures [] ⟨[(0, 0)], [("m", [1])]⟩ ["m"] = .ok out := by
  have h : interpolate_point_measures [] ⟨[(0, 0)], [("m", [1])]⟩ ["m"]
      = .error .insufficientData := by with_unfolding_all rfl
  refine ⟨h, ?_⟩
  rintro ⟨out, hout⟩
  rw [hout] at h
  exact absurd h (by simp)

/-- C7 (amended): for every non-empty input point collection the
interpolator builds its lattice as a fixed 500 by 500 grid whose extreme
nodes are exactly the four corners of the input's bounding box;
whenever the call returns (interpolation of some requested measure may
instead fail), the output carries that lattice as its geometry and
exactly one value per lattice node in every interpolated column. -/
theorem interp_fixed_grid (T : List Tri) (g : GeoFrame) (selected : List String)
    (hne : g.pts ≠ []) :
    ∃ xmin ymin xmax ymax, total_bounds g.pts = some (xmin, ymin, xmax, ymax) ∧
      (gridNodes (total_bounds g.pts)).length = 500 * 500 ∧
      (gridNodes (total_bounds g.pts)).getD 0 (none, none) = (some xmin, some ymin) ∧
      (gridNodes (total_bounds g.pts)).getD 499 (none, none) = (some xmin, some ymax) ∧
      (gridNodes (total_bounds g.pts)).getD (500 * 499) (none, none)
        = (some xmax, some ymin) ∧
      (gridNodes (total_bounds g.pts)).getD (500 * 500 - 1) (none, none)
        = (some xmax, some ymax) ∧
      ∀ out, interpolate_point_measures T g selected = .ok out →
        out.geometry = gridNodes (total_bounds g.pts) ∧
        ∀ c ∈ out.cols, c.2.length = 500 * 500 := by
  rcases Option.isSome_iff_exists.1 (boundsOf_isSome g.pts hne) with ⟨bb, hb⟩
  obtain ⟨xmin, ymin, xmax, ymax⟩ := bb
  have hb2 : total_bounds g.pts = some (xmin, ymin, xmax, ymax) := hb
  refine ⟨xmin, ymin, xmax, ymax, hb2, gridNodes_length _, ?_, ?_, ?_, ?_, ?_⟩
  · rw [hb2]
    have h := gridNodes_getD xmin ymin xmax ymax 0 0 (by norm_num) (by norm_num)
    rw [linspace500_get_zero, linspace500_get_zero] at h
    simpa using h
  · rw [hb2]
    have h := gridNodes_getD xmin ymin xmax ymax 0 499 (by norm_num) (by norm_num)
    rw [linspace500_get_zero, linspace500_get_last] at h
    simpa using h
  · rw [hb2]
    have h := gridNodes_getD xmin ymin xmax ymax 499 0 (by norm_num) (by norm_num)
    rw [linspace500_get_last, linspace500_get_zero] at h
    simpa using h
  · rw [hb2]
    have h := gridNodes_getD xmin ymin xmax ymax 499 499 (by norm_num) (by norm_num)
    rw [linspace500_get_last, linspace500_get_last] at h
    rw [show (500 : Nat) * 499 + 499 = 500 * 500 - 1 by norm_num] at h
    exact h
  · intro out hout
    rcases interp_ok_elim T g selected out hout with ⟨hloop, hgeom⟩
    refine ⟨hgeom, ?_⟩
    intro c hc
    rcases interpLoop_ok_mem T g (gridNodes (total_bounds g.pts)) hloop c hc
      with ⟨vals, _, _, hcol⟩
    rw [hcol, List.length_map, gridNodes_length]

/-- C7 witness: the lattice shape on the three-point test frame. -/
theorem interp_fixed_grid_witness :
    ∃ xmin ymin xmax ymax, total_bounds gFrame3.pts = some (xmin, ymin, xmax, ymax) ∧
      (gridNodes (total_bounds gFrame3.pts)).length = 500 * 500 ∧
      (gridNodes (total_bounds gFrame3.pts)).getD 0 (none, none)
        = (some xmin, some ymin) ∧
      (gridNodes (total_bounds gFrame3.pts)).getD 499 (none, none)
        = (some xmin, some ymax) ∧
      (gridNodes (total_bounds gFrame3.pts)).getD (500 * 499) (none, none)
        = (some xmax, some ymin) ∧
      (gridNodes (total_bounds gFrame3.pts)).getD (500 * 500 - 1) (none, none)
        = (some xmax, some ymax) ∧
      ∀ out, interpolate_point_measures [] gFrame3 ["m"] = .ok out →
        out.geometry = gridNodes (total_bounds gFrame3.pts) ∧
        ∀ c ∈ out.cols, c.2.length = 500 * 500 :=
  interp_fixed_grid [] gFrame3 ["m"] (by with_unfolding_all decide)

/-! ## Convex-hull lemmas for the surface interpolator -/

theorem inHullB_of_tri (pts : List Pt) (q a b c : Pt)
    (ha : a ∈ pts) (hb : b ∈ pts) (hc : c ∈ pts)
    (hnz : crossQ a b c ≠ 0) (ht : triPtB a b c q = true) :
    inHullB pts q = true := by
  unfold inHullB
  rw [List.any_eq_true]
  refine ⟨a, ha, ?_⟩
  rw [List.any_eq_true]
  refine ⟨b, hb, ?_⟩
  rw [List.any_eq_true]
  refine ⟨c, hc, ?_⟩
  rw [Bool.and_eq_true]
  exact ⟨bne_iff_ne.2 hnz, ht⟩

theorem triPt_mem_convexHull (a b c q : Pt) (s : Set Pt)
    (hnz : crossQ a b c ≠ 0) (ht : triPtB a b c q = true)
    (ha : a ∈ s) (hb : b ∈ s) (hc : c ∈ s) :
    q ∈ convexHull ℚ s := by
  have hsum : crossQ q b c + crossQ a q c + crossQ a b q = crossQ a b c := by
    unfold crossQ; ring
  have hx : crossQ q b c * a.1 + crossQ a q c * b.1 + crossQ a b q * c.1
      = crossQ a b c * q.1 := by
    unfold crossQ; ring
  have hy : crossQ q b c * a.2 + crossQ a q c * b.2 + crossQ a b q * c.2
      = crossQ a b c * q.2 := by
    unfold crossQ; ring
  have hcyc1 : crossQ b c q = crossQ q b c := by unfold crossQ; ring
  have hcyc2 : crossQ c a q = crossQ a q c := by unfold crossQ; ring
  simp only [triPtB, Bool.or_eq_true, Bool.and_eq_true, decide_eq_true_eq, hcyc1, hcyc2] at ht
  have hsigns : (0 ≤ crossQ q b c ∧ 0 ≤ crossQ a q c ∧ 0 ≤ crossQ a b q ∧
        0 < crossQ a b c) ∨
      (crossQ q b c ≤ 0 ∧ crossQ a q c ≤ 0 ∧ crossQ a b q ≤ 0 ∧ crossQ a b c < 0) := by
    rcases ht with ⟨⟨h3, h1⟩, h2⟩ | ⟨⟨h3, h1⟩, h2⟩
    · left
      refine ⟨h1, h2, h3, lt_of_le_of_ne (by linarith) (Ne.symm hnz)⟩
    · right
      refine ⟨h1, h2, h3, lt_of_le_of_ne (by linarith) hnz⟩
  have hw1 : 0 ≤ crossQ q b c / crossQ a b c := by
    rcases hsigns with ⟨h1, _, _, hd⟩ | ⟨h1, _, _, hd⟩
    · exact div_nonneg h1 hd.le
    · rw [div_nonneg_iff]; right; exact ⟨h1, hd.le⟩
  have hw2 : 0 ≤ crossQ a q c / crossQ a b c := by
    rcases hsigns with ⟨_, h2, _, hd⟩ | ⟨_, h2, _, hd⟩
    · exact div_nonneg h2 hd.le
    · rw [div_nonneg_iff]; right; exact ⟨h2, hd.le⟩
  have hw3 : 0 ≤ crossQ a b q / crossQ a b c := by
    rcases hsigns with ⟨_, _, h3, hd⟩ | ⟨_, _, h3, hd⟩
    · exact div_nonneg h3 hd.le
    · rw [div_nonneg_iff]; right; exact ⟨h3, hd.le⟩
  have hwsum : crossQ q b c / crossQ a b c + crossQ a q c / crossQ a b c
      + crossQ a b q / crossQ a b c = 1 := by
    rw [div_add_div_same, div_add_div_same, hsum, div_self hnz]
  have hcombo : (crossQ q b c / crossQ a b c) • a + (crossQ a q c / crossQ a b c) • b
      + (crossQ a b q / crossQ a b c) • c = q := by
    have hfst : ((crossQ q b c / crossQ a b c) • a + (crossQ a q c / crossQ a b c) • b
        + (crossQ a b q / crossQ a b c) • c).1 = q.1 := by
      simp only [Prod.fst_add, Prod.smul_fst, smul_eq_mul]
      field_simp
      linear_combination hx
    have hsnd : ((crossQ q b c / crossQ a b c) • a + (crossQ a q c / crossQ a b c) • b
        + (crossQ a b q / crossQ a b c) • c).2 = q.2 := by
      simp only [Prod.snd_add, Prod.smul_snd, smul_eq_mul]
      field_simp
      linear_combination hy
    exact Prod.ext hfst hsnd
  have hz : ∀ i ∈ (Finset.univ : Finset (Fin 3)), (![a, b, c]) i ∈ s := by
    intro i _
    fin_cases i
    · exact ha
    · exact hb
    · exact hc
  have hw : ∀ i ∈ (Finset.univ : Finset (Fin 3)),
      0 ≤ (![crossQ q b c / crossQ a b c, crossQ a q c / crossQ a b c,
        crossQ a b q / crossQ a b c]) i := by
    intro i _
    fin_cases i
    · exact hw1
    · exact hw2
    · exact hw3
  have hsum1 : ∑ i : Fin 3, (![crossQ q b c / crossQ a b c, crossQ a q c / crossQ a b c,
      crossQ a b q / crossQ a b c]) i = 1 := by
    rw [Fin.sum_univ_three]
    simpa using hwsum
  have hmem := Finset.centerMass_mem_convexHull (Finset.univ : Finset (Fin 3)) hw
    (by rw [hsum1]; norm_num) hz
  rw [Finset.centerMass_eq_of_sum_1 _ _ hsum1, Fin.sum_univ_three] at hmem
  simpa [hcombo] using hmem

theorem inHullB_mem_convexHull (pts : List Pt) (q : Pt) (h : inHullB pts q = true) :
    q ∈ convexHull ℚ {p : Pt | p ∈ pts} := by
  unfold inHullB at h
  rw [List.any_eq_true] at h
  rcases h with ⟨a, ha, h⟩
  rw [List.any_eq_true] at h
  rcases h with ⟨b, hb, h⟩
  rw [List.any_eq_true] at h
  rcases h with ⟨c, hc, h⟩
  rw [Bool.and_eq_true] at h
  exact triPt_mem_convexHull a b c q {p : Pt | p ∈ pts} (bne_iff_ne.1 h.1) h.2 ha hb hc

theorem interpNode_none_outside_hull (pts : List Pt) (vals : List ℚ) (T : List Tri)
    (hT : TriWF pts T) (x y : ℚ) (hq : inHullB pts (x, y) = false) :
    interpNode pts vals T (some x, some y) = none := by
  have hred : interpNode pts vals T (some x, some y)
      = match T.find? (fun s => triContainsB pts s (x, y)) with
        | some t => some (baryValue pts vals t (x, y))
        | none => none := rfl
  rw [hred]
  cases hf : T.find? (fun s => triContainsB pts s (x, y)) with
  | none => rfl
  | some t =>
    exfalso
    have htc : triContainsB pts t (x, y) = true :=
      @List.find?_some Tri (fun s => triContainsB pts s (x, y)) t T hf
    have htm := List.mem_of_find?_eq_some hf
    rcases hT t htm with ⟨h1, h2, h3, hnz⟩
    have hmem1 : pts.getD t.1 (0, 0) ∈ pts := by
      rw [List.getD_eq_getElem pts (0, 0) h1]
      exact List.getElem_mem h1
    have hmem2 : pts.getD t.2.1 (0, 0) ∈ pts := by
      rw [List.getD_eq_getElem pts (0, 0) h2]
      exact List.getElem_mem h2
    have hmem3 : pts.getD t.2.2 (0, 0) ∈ pts := by
      rw [List.getD_eq_getElem pts (0, 0) h3]
      exact List.getElem_mem h3
    have := inHullB_of_tri pts (x, y) (pts.getD t.1 (0, 0)) (pts.getD t.2.1 (0, 0))
      (pts.getD t.2.2 (0, 0)) hmem1 hmem2 hmem3 hnz htc
    rw [this] at hq
    exact absurd hq (by simp)

/-! ## Claim theorem: no extrapolation outside the convex hull -/

/-- C3: a lattice node strictly outside the convex hull of the input
points carries the no-data sentinel for every interpolated attribute —
never a numeric extrapolation.  The hypothesis is the well-formedness
scipy's Delaunay triangulation guarantees for `T`; the hull is
Mathlib's `convexHull` of the set of input points. -/
theorem interp_no_extrapolation (T : List Tri) (g : GeoFrame) (selected : List String)
    (hT : TriWF g.pts T) :
    ∀ out, interpolate_point_measures T g selected = .ok out →
      ∀ (k : Nat) (x y : ℚ), out.geometry.getD k (none, none) = (some x, some y) →
        (x, y) ∉ convexHull ℚ {p : Pt | p ∈ g.pts} →
        ∀ c ∈ out.cols, c.2.getD k none = none := by
  intro out hout k x y hnode hmem c hc
  have hhull : inHullB g.pts (x, y) = false := by
    cases hb : inHullB g.pts (x, y) with
    | false => rfl
    | true => exact absurd (inHullB_mem_convexHull g.pts (x, y) hb) hmem
  rcases interp_ok_elim T g selected out hout with ⟨hloop, hgeom⟩
  rcases interpLoop_ok_mem T g (gridNodes (total_bounds g.pts)) hloop c hc
    with ⟨vals, _, _, hcol⟩
  rw [hgeom] at hnode
  have hk : k < (gridNodes (total_bounds g.pts)).length := by
    by_contra hge
    rw [List.getD_eq_default _ _ (by omega)] at hnode
    exact absurd hnode (by simp)
  rw [hcol]
  rw [List.getD_eq_getElem _ _ (by rw [List.length_map]; exact hk), List.getElem_map]
  rw [List.getD_eq_getElem _ _ hk] at hnode
  rw [hnode]
  exact interpNode_none_outside_hull g.pts vals T hT x y hhull

/-- C3 witness: the single-triangle triangulation of the three test
points is well formed, so out-of-hull lattice nodes of any successful
run carry the no-data sentinel. -/
theorem interp_no_extrapolation_witness :
    TriWF gFrame3.pts triT3 ∧
      (∀ out, interpolate_point_measures triT3 gFrame3 ["m"] = .ok out →
        ∀ (k : Nat) (x y : ℚ), out.geometry.getD k (none, none) = (some x, some y) →
          (x, y) ∉ convexHull ℚ {p : Pt | p ∈ gFrame3.pts} →
          ∀ c ∈ out.cols, c.2.getD k none = none) :=
  ⟨by with_unfolding_all decide,
   interp_no_extrapolation triT3 gFrame3 ["m"] (by with_unfolding_all decide)⟩

/-! ## Barycentric-exactness lemmas -/

theorem crossQ_self_left (o q : Pt) : crossQ o o q = 0 := by
  unfold crossQ
  ring

theorem crossQ_self_right (o p : Pt) : crossQ o p o = 0 := by
  unfold crossQ
  ring

theorem crossQ_self_pair (o p : Pt) : crossQ o p p = 0 := by
  unfold crossQ
  ring

theorem baryValue_vertex1 (pts : List Pt) (vals : List ℚ) (t : Tri)
    (hnz : crossQ (triVerts pts t).1 (triVerts pts t).2.1 (triVerts pts t).2.2 ≠ 0) :
    baryValue pts vals t (triVerts pts t).1 = vals.getD t.1 0 := by
  simp only [baryValue, crossQ_self_left, crossQ_self_right, div_self hnz, zero_div,
    zero_mul, add_zero, one_mul]

theorem baryValue_vertex2 (pts : List Pt) (vals : List ℚ) (t : Tri)
    (hnz : crossQ (triVerts pts t).1 (triVerts pts t).2.1 (triVerts pts t).2.2 ≠ 0) :
    baryValue pts vals t (triVerts pts t).2.1 = vals.getD t.2.1 0 := by
  simp only [baryValue, crossQ_self_left, crossQ_self_pair, div_self hnz, zero_div,
    zero_mul, add_zero, zero_add, one_mul]

theorem baryValue_vertex3 (pts : List Pt) (vals : List ℚ) (t : Tri)
    (hnz : crossQ (triVerts pts t).1 (triVerts pts t).2.1 (triVerts pts t).2.2 ≠ 0) :
    baryValue pts vals t (triVerts pts t).2.2 = vals.getD t.2.2 0 := by
  simp only [baryValue, crossQ_self_right, crossQ_self_pair, div_self hnz, zero_div,
    zero_mul, zero_add, one_mul]

theorem nodup_getD_eq_get (pts : List Pt) (hnd : pts.Nodup) (n i : Nat)
    (hn : n < pts.length) (hi : i < pts.length)
    (heq : pts.getD n (0, 0) = pts.get ⟨i, hi⟩) : n = i := by
  rw [List.getD_eq_getElem pts (0, 0) hn] at heq
  have hget : pts.get ⟨n, hn⟩ = pts.get ⟨i, hi⟩ := by
    rw [List.get_eq_getElem, List.get_eq_getElem]
    exact heq
  have hfin := (List.Nodup.get_inj_iff hnd).1 hget
  have := congrArg Fin.val hfin
  simpa using this

theorem interpNode_exact (pts : List Pt) (vals : List ℚ) (T : List Tri)
    (hT : TriWF pts T)
    (hvert : ∀ t ∈ T, ∀ p ∈ pts, triContainsB pts t p = true →
      p = (triVerts pts t).1 ∨ p = (triVerts pts t).2.1 ∨ p = (triVerts pts t).2.2)
    (hnd : pts.Nodup) (i : Nat) (hi : i < pts.length)
    (hcov : ∃ t ∈ T, triContainsB pts t (pts.get ⟨i, hi⟩) = true) :
    interpNode pts vals T (some (pts.get ⟨i, hi⟩).1, some (pts.get ⟨i, hi⟩).2)
      = some (vals.getD i 0) := by
  have hpair : ((pts.get ⟨i, hi⟩).1, (pts.get ⟨i, hi⟩).2) = pts.get ⟨i, hi⟩ := rfl
  have hred : interpNode pts vals T (some (pts.get ⟨i, hi⟩).1, some (pts.get ⟨i, hi⟩).2)
      = match T.find? (fun s => triContainsB pts s (pts.get ⟨i, hi⟩)) with
        | some t => some (baryValue pts vals t (pts.get ⟨i, hi⟩))
        | none => none := rfl
  rw [hred]
  cases hf : T.find? (fun s => triContainsB pts s (pts.get ⟨i, hi⟩)) with
  | none =>
    exfalso
    rcases hcov with ⟨t, htm, htc⟩
    exact absurd htc (by simpa using List.find?_eq_none.1 hf t htm)
  | some t =>
    show some (baryValue pts vals t (pts.get ⟨i, hi⟩)) = some (vals.getD i 0)
    have htc : triContainsB pts t (pts.get ⟨i, hi⟩) = true :=
      @List.find?_some Tri (fun s => triContainsB pts s (pts.get ⟨i, hi⟩)) t T hf
    have htm := List.mem_of_find?_eq_some hf
    rcases hT t htm with ⟨h1, h2, h3, hnz⟩
    rcases hvert t htm (pts.get ⟨i, hi⟩) (List.get_mem pts i hi) htc with hv | hv | hv
    · have hidx : t.1 = i := nodup_getD_eq_get pts hnd t.1 i h1 hi hv.symm
      rw [hv, baryValue_vertex1 pts vals t hnz, hidx]
    · have hidx : t.2.1 = i := nodup_getD_eq_get pts hnd t.2.1 i h2 hi hv.symm
      rw [hv, baryValue_vertex2 pts vals t hnz, hidx]
    · have hidx : t.2.2 = i := nodup_getD_eq_get pts hnd t.2.2 i h3 hi hv.symm
      rw [hv, baryValue_vertex3 pts vals t hnz, hidx]

/-! ## Claim theorem: interpolation is exact at sample locations -/

/-- C9: when an input point coincides exactly with a lattice node, the
interpolated value of every requested attribute at that node equals the
input point's value.  The hypotheses on `T` are the facts scipy's
Delaunay triangulation of the (distinct) input points guarantees: well
formed simplices and no input point interior to a simplex it is not a
vertex of; `hcov` states the sample point is covered by the
triangulation. -/
theorem interp_exact_at_sample (T : List Tri) (g : GeoFrame) (selected : List String)
    (m : String) (vals : List ℚ) (i : Nat) (hi : i < g.pts.length)
    (hm : getCol g m = some vals)
    (hT : TriWF g.pts T)
    (hvert : ∀ t ∈ T, ∀ p ∈ g.pts, triContainsB g.pts t p = true →
      p = (triVerts g.pts t).1 ∨ p = (triVerts g.pts t).2.1 ∨ p = (triVerts g.pts t).2.2)
    (hnd : g.pts.Nodup)
    (hcov : ∃ t ∈ T, triContainsB g.pts t (g.pts.get ⟨i, hi⟩) = true) :
    interpNode g.pts vals T
        (some (g.pts.get ⟨i, hi⟩).1, some (g.pts.get ⟨i, hi⟩).2) = some (vals.getD i 0) ∧
      ∀ out, interpolate_point_measures T g selected = .ok out →
        ∀ col, (m, col) ∈ out.cols →
          ∀ k, out.geometry.getD k (none, none)
              = (some (g.pts.get ⟨i, hi⟩).1, some (g.pts.get ⟨i, hi⟩).2) →
            col.getD k none = some (vals.getD i 0) := by
  have hcore := interpNode_exact g.pts vals T hT hvert hnd i hi hcov
  refine ⟨hcore, ?_⟩
  intro out hout col hcol k hk
  rcases interp_ok_elim T g selected out hout with ⟨hloop, hgeom⟩
  rcases interpLoop_ok_mem T g (gridNodes (total_bounds g.pts)) hloop (m, col) hcol
    with ⟨vals2, hv2, _, hcol2⟩
  have hv3 : getCol g m = some vals2 := hv2
  have hvals : vals2 = vals := by
    rw [hm] at hv3
    exact (Option.some.inj hv3).symm
  have hcol3 : col = (gridNodes (total_bounds g.pts)).map (interpNode g.pts vals2 T) := hcol2
  rw [hgeom] at hk
  have hklen : k < (gridNodes (total_bounds g.pts)).length := by
    by_contra hge
    rw [List.getD_eq_default _ _ (by omega)] at hk
    exact absurd hk (by simp)
  rw [hcol3, List.getD_eq_getElem _ _ (by rw [List.length_map]; exact hklen),
    List.getElem_map]
  rw [List.getD_eq_getElem _ _ hklen] at hk
  rw [hk, hvals]
  exact hcore

/-- C9 witness: the input point `(0, 0)` of the three-point test frame
is the bottom-left lattice node of its own bounding box; the
interpolated value of the measure there is its input value 10. -/
theorem interp_exact_at_sample_witness :
    interpNode gFrame3.pts [10, 20, 30] triT3 (some 0, some 0) = some 10 ∧
      ∀ out, interpolate_point_measures triT3 gFrame3 ["m"] = .ok out →
        ∀ col, ("m", col) ∈ out.cols →
          ∀ k, out.geometry.getD k (none, none) = (some 0, some 0) →
            col.getD k none = some 10 := by
  have h := interp_exact_at_sample triT3 gFrame3 ["m"] "m" [10, 20, 30] 0
    (by with_unfolding_all decide) (by with_unfolding_all decide)
    (by with_unfolding_all decide) (by with_unfolding_all decide)
    (by with_unfolding_all decide) (by with_unfolding_all decide)
  exact h
